import Mathlib

/-!
Verification of the NautilusTrader core against its specification.

Part 1 embeds `WindowedMinMaxPrices`
(`src/nautilus_trader/indicators/utils/windowed_min_max_prices.pyx`).
Prices are embedded as rationals (the source uses fixed-precision decimals),
timestamps as integers; deques become lists with the front at the head.
-/

/-- One deque entry: `(ts, price)` as appended by `add_price`. -/
abbrev PriceEntry := Int × ℚ

/-- `WindowedMinMaxPrices._expire_stale_prices_by_cutoff`: drop items from the
front while they are older than the cutoff (`while ts_prices and ts_prices[0][0] < cutoff: popleft`). -/
def expire_stale_prices_by_cutoff (cutoff : Int) : List PriceEntry → List PriceEntry
  | [] => []
  | e :: rest =>
    if e.1 < cutoff then expire_stale_prices_by_cutoff cutoff rest else e :: rest

/-- The loop `while l and l[0][1] <= price: popleft()`: drop entries from the
front while their price is `≤ price`. -/
def pop_front_while_le (price : ℚ) : List PriceEntry → List PriceEntry
  | [] => []
  | e :: rest =>
    if e.2 ≤ price then pop_front_while_le price rest else e :: rest

/-- The loop `while l and l[-1][1] <= price: pop()`: drop entries from the
back while their price is `≤ price`. -/
def pop_back_while_le (price : ℚ) (l : List PriceEntry) : List PriceEntry :=
  (pop_front_while_le price l.reverse).reverse

/-- `WindowedMinMaxPrices._add_min_price`: pop back entries with price `≤ price`,
then pop front entries with price `≤ price`, then append `(ts, price)`. -/
def add_min_price (ts : Int) (price : ℚ) (l : List PriceEntry) : List PriceEntry :=
  pop_front_while_le price (pop_back_while_le price l) ++ [(ts, price)]

/-- `WindowedMinMaxPrices._add_max_price`: identical body to `_add_min_price`
in the source (pop back `≤ price`, pop front `≤ price`, append). -/
def add_max_price (ts : Int) (price : ℚ) (l : List PriceEntry) : List PriceEntry :=
  pop_front_while_le price (pop_back_while_le price l) ++ [(ts, price)]

/-- Python `min(list)`: `none` on the empty list, else the least element. -/
def price_list_min : List ℚ → Option ℚ
  | [] => none
  | p :: rest => some (rest.foldl min p)

/-- Python `max(list)`: `none` on the empty list, else the greatest element. -/
def price_list_max : List ℚ → Option ℚ
  | [] => none
  | p :: rest => some (rest.foldl max p)

/-- State of a `WindowedMinMaxPrices` instance. -/
structure WindowedMinMaxPrices where
  lookback : Int
  min_price : Option ℚ
  max_price : Option ℚ
  min_prices : List PriceEntry
  max_prices : List PriceEntry
deriving Repr, DecidableEq

/-- `WindowedMinMaxPrices.__init__`: marks are `None`, deques empty. -/
def WindowedMinMaxPrices.init (lookback : Int) : WindowedMinMaxPrices :=
  { lookback := lookback
    min_price := none
    max_price := none
    min_prices := []
    max_prices := [] }

/-- `WindowedMinMaxPrices.add_price` after its UTC guard: expire both deques at
`cutoff = ts - lookback`, run `_add_min_price` / `_add_max_price`, then set
`min_price = min(prices in _min_prices)` and `max_price = max(prices in _max_prices)`. -/
def WindowedMinMaxPrices.add_price (s : WindowedMinMaxPrices) (ts : Int) (price : ℚ) :
    WindowedMinMaxPrices :=
  let cutoff := ts - s.lookback
  let minq := add_min_price ts price (expire_stale_prices_by_cutoff cutoff s.min_prices)
  let maxq := add_max_price ts price (expire_stale_prices_by_cutoff cutoff s.max_prices)
  { lookback := s.lookback
    min_price := price_list_min (minq.map Prod.snd)
    max_price := price_list_max (maxq.map Prod.snd)
    min_prices := minq
    max_prices := maxq }

/-- `WindowedMinMaxPrices.reset`: marks back to `None`, deques cleared,
lookback kept. -/
def WindowedMinMaxPrices.reset (s : WindowedMinMaxPrices) : WindowedMinMaxPrices :=
  { lookback := s.lookback
    min_price := none
    max_price := none
    min_prices := []
    max_prices := [] }

/-- Fold a sequence of `(ts, price)` adds over a starting state. -/
def WindowedMinMaxPrices.applyAddsFrom (s : WindowedMinMaxPrices) (adds : List PriceEntry) :
    WindowedMinMaxPrices :=
  adds.foldl (fun t a => t.add_price a.1 a.2) s

/-- Fold a sequence of `(ts, price)` adds over a fresh instance with the given
lookback. -/
def WindowedMinMaxPrices.applyAdds (lookback : Int) (adds : List PriceEntry) :
    WindowedMinMaxPrices :=
  WindowedMinMaxPrices.applyAddsFrom (WindowedMinMaxPrices.init lookback) adds

/-- The spec's windowed-min/max test vector: `L = 60`,
adds `(0,100), (20,98), (40,102), (70,99)`. -/
def c1_adds : List PriceEntry := [(0, 100), (20, 98), (40, 102), (70, 99)]

/-- The window minimum the spec asks for: the least price among the adds with
timestamp at or after the cutoff. -/
def spec_window_min (cutoff : Int) (adds : List PriceEntry) : Option ℚ :=
  price_list_min ((adds.filter (fun a => cutoff ≤ a.1)).map Prod.snd)

/-- The window maximum the spec asks for. -/
def spec_window_max (cutoff : Int) (adds : List PriceEntry) : Option ℚ :=
  price_list_max ((adds.filter (fun a => cutoff ≤ a.1)).map Prod.snd)

/-- Both deques keep their prices strictly decreasing from front to back; this
is the invariant the source's eviction discipline actually maintains. -/
abbrev DecrSnd (l : List PriceEntry) : Prop :=
  l.Pairwise (fun a b => b.2 < a.2)

/-- A timestamp as handed to `add_price`: an instant plus the timezone
information Python datetimes carry (`none` = naive, `some o` = fixed offset `o`). -/
structure Datetime where
  time : Int
  utcoffset : Option Int
deriving Repr, DecidableEq

/-- Modelled from the spec: `is_datetime_utc` comes from
`nautilus_trader.core.datetime`, which is not under `src/`. Per the spec, a
timestamp passes the guard exactly when it is tz-aware UTC: aware with offset
zero. -/
def is_datetime_utc (ts : Datetime) : Bool := ts.utcoffset = some 0

/-- The failure raised by the `Condition.true(is_datetime_utc(ts), ...)` guard,
named `TimestampNotUtc` as in the spec's error taxonomy. -/
inductive AddPriceError
  | timestampNotUtc
deriving Repr, DecidableEq

/-- `WindowedMinMaxPrices.add_price` with its leading guard: the source checks
`is_datetime_utc(ts)` before touching any state, so a failing guard raises with
the instance untouched. -/
def WindowedMinMaxPrices.add_price_checked (s : WindowedMinMaxPrices) (ts : Datetime)
    (price : ℚ) : Except AddPriceError WindowedMinMaxPrices :=
  if is_datetime_utc ts then Except.ok (s.add_price ts.time price)
  else Except.error AddPriceError.timestampNotUtc

/-- The state an instance is left in after a call of `add_price`: the new state
on success, the untouched old state when the guard raised. -/
def WindowedMinMaxPrices.add_price_run (s : WindowedMinMaxPrices) (ts : Datetime)
    (price : ℚ) : WindowedMinMaxPrices :=
  match s.add_price_checked ts price with
  | Except.ok s2 => s2
  | Except.error _ => s

/-!
Part 2 embeds `MarketOrder` (second unit of
`src/nautilus_trader/indicators/utils/windowed_min_max_prices.pyx`).
Quantities and prices are rationals (fixed-precision decimals in the source);
identifiers are strings.
-/

/-- `OrderSide` enum (`BUY`/`SELL` plus the undefined sentinel). -/
inductive OrderSide
  | UNDEFINED
  | BUY
  | SELL
deriving Repr, DecidableEq

/-- `TimeInForce` enum. -/
inductive TimeInForce
  | UNDEFINED
  | DAY
  | GTC
  | IOC
  | FOK
  | GTD
deriving Repr, DecidableEq

/-- `_MARKET_ORDER_VALID_TIF = {GTC, IOC, FOK}` from the source. -/
def MARKET_ORDER_VALID_TIF : List TimeInForce :=
  [TimeInForce.GTC, TimeInForce.IOC, TimeInForce.FOK]

/-- The state of a `MarketOrder`. Fields before `id` come from the
`OrderInitialized` event built in `MarketOrder.__init__`; the remaining fields
are the base-`Order` state that `_filled` mutates, with their fresh-order
values (no fills yet: empty `execution_ids`, zero `filled_qty`, `avg_price`
undefined) modelled from the spec since `Order.__init__` is not under `src/`. -/
structure MarketOrder where
  cl_ord_id : String
  strategy_id : String
  symbol : String
  side : OrderSide
  quantity : ℚ
  time_in_force : TimeInForce
  init_id : String
  timestamp : Int
  id : Option String
  position_id : Option String
  execution_ids : List String
  execution_id : Option String
  filled_qty : ℚ
  filled_timestamp : Option Int
  avg_price : Option ℚ
deriving Repr, DecidableEq

/-- Validation failures of `MarketOrder.__init__`, named as in the spec's error
taxonomy (`QuantityNonPositive`, `TimeInForceInvalid`); in the source both are
`ValueError`s raised by `Condition.positive` and `Condition.true`. -/
inductive OrderInitError
  | quantityNonPositive
  | timeInForceInvalid
deriving Repr, DecidableEq

/-- Modelled from the spec: the `Quantity` value type (`nautilus_trader.model.objects`,
not under `src/`) admits any non-negative decimal, zero included. -/
def QuantityValid (q : ℚ) : Prop := 0 ≤ q

/-- `MarketOrder.__init__`: `Condition.positive(quantity)` first, then
`Condition.true(time_in_force in _MARKET_ORDER_VALID_TIF)`, then the order is
built in its fresh state. -/
def MarketOrder.init (cl_ord_id strategy_id symbol : String) (side : OrderSide)
    (quantity : ℚ) (time_in_force : TimeInForce) (init_id : String)
    (timestamp : Int) : Except OrderInitError MarketOrder :=
  if 0 < quantity then
    if time_in_force ∈ MARKET_ORDER_VALID_TIF then
      Except.ok
        { cl_ord_id := cl_ord_id
          strategy_id := strategy_id
          symbol := symbol
          side := side
          quantity := quantity
          time_in_force := time_in_force
          init_id := init_id
          timestamp := timestamp
          id := none
          position_id := none
          execution_ids := []
          execution_id := none
          filled_qty := 0
          filled_timestamp := none
          avg_price := none }
    else Except.error OrderInitError.timeInForceInvalid
  else Except.error OrderInitError.quantityNonPositive

/-- An `OrderFilled` event, with the fields `MarketOrder._filled` reads. -/
structure OrderFilled where
  order_id : String
  position_id : String
  strategy_id : String
  execution_id : String
  fill_qty : ℚ
  fill_price : ℚ
  timestamp : Int
deriving Repr, DecidableEq

/-- An `OrderAmended` event (replacement quantity and working price). -/
structure OrderAmended where
  quantity : ℚ
  price : ℚ
  timestamp : Int
deriving Repr, DecidableEq

/-- Modelled from the spec: `Order._calculate_avg_price` lives on the base
`Order` class, which is not under `src/`. The spec fixes its result: `avg_price`
is recomputed "as the fill-quantity-weighted mean over all applied fills", so
the first fill yields its own price and a later fill folds into the running
mean weighted by the quantity filled before it. -/
def calculate_avg_price (avg_price : Option ℚ) (filled_qty fill_price fill_qty : ℚ) : ℚ :=
  match avg_price with
  | none => fill_price
  | some avg => (avg * filled_qty + fill_price * fill_qty) / (filled_qty + fill_qty)

/-- `MarketOrder._filled` from the source: overwrite the venue identifiers,
append the execution id, add `fill_qty` to `filled_qty`, stamp the fill time,
and recompute `avg_price` (the helper receives the pre-fill `filled_qty`, i.e.
the total weight of the fills already applied). -/
def MarketOrder.filled (o : MarketOrder) (event : OrderFilled) : MarketOrder :=
  { o with
    id := some event.order_id
    position_id := some event.position_id
    strategy_id := event.strategy_id
    execution_ids := o.execution_ids ++ [event.execution_id]
    execution_id := some event.execution_id
    filled_qty := o.filled_qty + event.fill_qty
    filled_timestamp := some event.timestamp
    avg_price := some (calculate_avg_price o.avg_price o.filled_qty event.fill_price event.fill_qty) }

/-- Modelled from the spec: the fill dispatcher `Order.apply` lives on the base
`Order` class, not under `src/`. Per the spec, a fill whose `execution_id` is
already among the order's `execution_ids` is a no-op returning success;
otherwise the `_filled` handler runs. -/
def MarketOrder.apply_filled (o : MarketOrder) (event : OrderFilled) : MarketOrder :=
  if event.execution_id ∈ o.execution_ids then o else o.filled event

/-- Apply a sequence of fill events in order. -/
def MarketOrder.apply_fills (o : MarketOrder) (fills : List OrderFilled) : MarketOrder :=
  fills.foldl MarketOrder.apply_filled o

/-- Total quantity over a list of fills. -/
def fills_total_qty (fills : List OrderFilled) : ℚ :=
  (fills.map OrderFilled.fill_qty).sum

/-- Total price×quantity over a list of fills; divided by `fills_total_qty`
this is the fill-quantity-weighted mean price. -/
def fills_total_notional (fills : List OrderFilled) : ℚ :=
  (fills.map (fun e => e.fill_price * e.fill_qty)).sum

/-- The failure of amending a market order, named `AmendNotSupported` as in the
spec's error taxonomy; the source's `_amended` raises unconditionally as its
first and only statement. -/
inductive OrderUpdateError
  | amendNotSupported
deriving Repr, DecidableEq

/-- `MarketOrder._amended` from the source: `raise NotImplemented("Cannot amend
a market order")` — it fails before touching any field. -/
def MarketOrder.amended (o : MarketOrder) (event : OrderAmended) :
    Except OrderUpdateError MarketOrder :=
  Except.error OrderUpdateError.amendNotSupported

/-- The state an order is left in after an amend attempt: the updated order on
success, the untouched order when the handler raised. -/
def MarketOrder.apply_amended_run (o : MarketOrder) (event : OrderAmended) : MarketOrder :=
  match o.amended event with
  | Except.ok o2 => o2
  | Except.error _ => o

/-- A fresh order used as concrete input: `MarketOrder(cl=B, qty=100, GTC)`
in its post-`__init__` state. -/
def exampleOrder : MarketOrder :=
  { cl_ord_id := "B"
    strategy_id := "S-001"
    symbol := "AUD-USD"
    side := OrderSide.BUY
    quantity := 100
    time_in_force := TimeInForce.GTC
    init_id := "init-1"
    timestamp := 0
    id := none
    position_id := none
    execution_ids := []
    execution_id := none
    filled_qty := 0
    filled_timestamp := none
    avg_price := none }

/-- The spec's fill pair: 40 @ 10.00 then 60 @ 10.50, distinct execution ids. -/
def exampleFills : List OrderFilled :=
  [{ order_id := "O-1", position_id := "P-1", strategy_id := "S-001",
     execution_id := "E-1", fill_qty := 40, fill_price := 10, timestamp := 1 },
   { order_id := "O-1", position_id := "P-1", strategy_id := "S-001",
     execution_id := "E-2", fill_qty := 60, fill_price := 21 / 2, timestamp := 2 }]

theorem expire_suffix (c : Int) (l : List PriceEntry) :
    expire_stale_prices_by_cutoff c l <:+ l := by
  induction l with
  | nil => exact List.suffix_refl _
  | cons e rest ih =>
    simp only [expire_stale_prices_by_cutoff]
    split
    · exact ih.trans (List.suffix_cons e rest)
    · exact List.suffix_refl _

theorem pop_front_suffix (p : ℚ) (l : List PriceEntry) :
    pop_front_while_le p l <:+ l := by
  induction l with
  | nil => exact List.suffix_refl _
  | cons e rest ih =>
    simp only [pop_front_while_le]
    split
    · exact ih.trans (List.suffix_cons e rest)
    · exact List.suffix_refl _

theorem pop_front_mem_gt (p : ℚ) (l : List PriceEntry)
    (h : l.Pairwise (fun a b => a.2 < b.2)) :
    ∀ e ∈ pop_front_while_le p l, p < e.2 := by
  induction l with
  | nil => intro e he; simp [pop_front_while_le] at he
  | cons a rest ih =>
    rw [List.pairwise_cons] at h
    intro e he
    by_cases hc : a.2 ≤ p
    · simp only [pop_front_while_le, if_pos hc] at he
      exact ih h.2 e he
    · simp only [pop_front_while_le, if_neg hc] at he
      rcases List.mem_cons.1 he with rfl | hm
      · exact lt_of_not_le hc
      · exact lt_trans (lt_of_not_le hc) (h.1 e hm)

theorem pop_back_spec (p : ℚ) (l : List PriceEntry) (h : DecrSnd l) :
    DecrSnd (pop_back_while_le p l) ∧ ∀ e ∈ pop_back_while_le p l, p < e.2 := by
  have hrev : l.reverse.Pairwise (fun a b => a.2 < b.2) := List.pairwise_reverse.2 h
  have hq : (pop_front_while_le p l.reverse).Pairwise (fun a b => a.2 < b.2) :=
    hrev.sublist (pop_front_suffix p l.reverse).sublist
  constructor
  · exact List.pairwise_reverse.2 hq
  · intro e he
    rw [pop_back_while_le, List.mem_reverse] at he
    exact pop_front_mem_gt p l.reverse hrev e he

theorem add_min_price_spec (ts : Int) (p : ℚ) (l : List PriceEntry) (h : DecrSnd l) :
    DecrSnd (add_min_price ts p l) ∧
    (add_min_price ts p l).getLast? = some (ts, p) ∧
    (∀ e ∈ add_min_price ts p l, p ≤ e.2) ∧
    add_min_price ts p l ≠ [] := by
  obtain ⟨hq, hgt⟩ := pop_back_spec p l h
  have hsub : List.Sublist (pop_front_while_le p (pop_back_while_le p l))
      (pop_back_while_le p l) :=
    (pop_front_suffix p _).sublist
  have h2 : DecrSnd (pop_front_while_le p (pop_back_while_le p l)) := hq.sublist hsub
  have hgt2 : ∀ e ∈ pop_front_while_le p (pop_back_while_le p l), p < e.2 :=
    fun e he => hgt e (hsub.subset he)
  refine ⟨?_, ?_, ?_, ?_⟩
  · unfold add_min_price
    refine List.pairwise_append.2 ⟨h2, List.pairwise_singleton _ _, ?_⟩
    intro a ha b hb
    rw [List.mem_singleton] at hb
    subst hb
    exact hgt2 a ha
  · exact List.getLast?_concat _
  · unfold add_min_price
    intro e he
    rcases List.mem_append.1 he with h1 | h1
    · exact le_of_lt (hgt2 e h1)
    · rw [List.mem_singleton] at h1
      subst h1
      exact le_refl p
  · unfold add_min_price
    exact List.append_ne_nil_of_right_ne_nil _ (List.cons_ne_nil _ _)

theorem foldl_min_le_acc (m : List ℚ) : ∀ acc : ℚ, m.foldl min acc ≤ acc := by
  induction m with
  | nil => intro acc; exact le_refl acc
  | cons x rest ih =>
    intro acc
    rw [List.foldl_cons]
    exact le_trans (ih (min acc x)) (min_le_left _ _)

theorem foldl_min_le_mem (m : List ℚ) : ∀ acc x : ℚ, x ∈ m → m.foldl min acc ≤ x := by
  induction m with
  | nil => intro acc x hx; cases hx
  | cons y rest ih =>
    intro acc x hx
    rw [List.foldl_cons]
    rcases List.mem_cons.1 hx with rfl | hm
    · exact le_trans (foldl_min_le_acc rest _) (min_le_right _ _)
    · exact ih _ x hm

theorem le_foldl_min (m : List ℚ) :
    ∀ acc q : ℚ, q ≤ acc → (∀ x ∈ m, q ≤ x) → q ≤ m.foldl min acc := by
  induction m with
  | nil => intro acc q hacc _; exact hacc
  | cons y rest ih =>
    intro acc q hacc hall
    rw [List.foldl_cons]
    exact ih _ q (le_min hacc (hall y (List.mem_cons_self y rest)))
      (fun x hx => hall x (List.mem_cons_of_mem y hx))

theorem acc_le_foldl_max (m : List ℚ) : ∀ acc : ℚ, acc ≤ m.foldl max acc := by
  induction m with
  | nil => intro acc; exact le_refl acc
  | cons x rest ih =>
    intro acc
    rw [List.foldl_cons]
    exact le_trans (le_max_left _ _) (ih (max acc x))

theorem mem_le_foldl_max (m : List ℚ) : ∀ acc x : ℚ, x ∈ m → x ≤ m.foldl max acc := by
  induction m with
  | nil => intro acc x hx; cases hx
  | cons y rest ih =>
    intro acc x hx
    rw [List.foldl_cons]
    rcases List.mem_cons.1 hx with rfl | hm
    · exact le_trans (le_max_right _ _) (acc_le_foldl_max rest _)
    · exact ih _ x hm

theorem foldl_max_le (m : List ℚ) :
    ∀ acc q : ℚ, acc ≤ q → (∀ x ∈ m, x ≤ q) → m.foldl max acc ≤ q := by
  induction m with
  | nil => intro acc q hacc _; exact hacc
  | cons y rest ih =>
    intro acc q hacc hall
    rw [List.foldl_cons]
    exact ih _ q (max_le hacc (hall y (List.mem_cons_self y rest)))
      (fun x hx => hall x (List.mem_cons_of_mem y hx))

theorem price_list_min_eq_of (m : List ℚ) (q : ℚ) (hmem : q ∈ m)
    (hlb : ∀ x ∈ m, q ≤ x) : price_list_min m = some q := by
  cases m with
  | nil => cases hmem
  | cons p rest =>
    simp only [price_list_min]
    refine congrArg some (le_antisymm ?_ ?_)
    · rcases List.mem_cons.1 hmem with rfl | hm
      · exact foldl_min_le_acc rest _
      · exact foldl_min_le_mem rest p q hm
    · exact le_foldl_min rest p q (hlb p (List.mem_cons_self p rest))
        (fun x hx => hlb x (List.mem_cons_of_mem p hx))

theorem price_list_max_eq_of (m : List ℚ) (q : ℚ) (hmem : q ∈ m)
    (hub : ∀ x ∈ m, x ≤ q) : price_list_max m = some q := by
  cases m with
  | nil => cases hmem
  | cons p rest =>
    simp only [price_list_max]
    refine congrArg some (le_antisymm ?_ ?_)
    · exact foldl_max_le rest p q (hub p (List.mem_cons_self p rest))
        (fun x hx => hub x (List.mem_cons_of_mem p hx))
    · rcases List.mem_cons.1 hmem with rfl | hm
      · exact acc_le_foldl_max rest _
      · exact mem_le_foldl_max rest p q hm

theorem decr_max_eval (l : List PriceEntry) (h : DecrSnd l) (hne : l ≠ []) :
    ∃ f, l.head? = some f ∧ price_list_max (l.map Prod.snd) = some f.2 := by
  cases l with
  | nil => exact absurd rfl hne
  | cons a rest =>
    refine ⟨a, rfl, ?_⟩
    apply price_list_max_eq_of
    · exact List.mem_map_of_mem Prod.snd (List.mem_cons_self a rest)
    · intro x hx
      rcases List.mem_map.1 hx with ⟨e, he, rfl⟩
      rcases List.mem_cons.1 he with rfl | hm
      · exact le_refl _
      · exact le_of_lt ((List.pairwise_cons.1 h).1 e hm)

theorem getLast?_mem_of (l : List PriceEntry) (e : PriceEntry)
    (h : l.getLast? = some e) : e ∈ l := by
  induction l with
  | nil => cases h
  | cons a rest ih =>
    cases rest with
    | nil =>
      rw [List.getLast?_singleton] at h
      injection h with h
      subst h
      exact List.mem_cons_self _ _
    | cons b t =>
      rw [List.getLast?_cons_cons] at h
      exact List.mem_cons_of_mem a (ih h)

theorem add_price_spec (s : WindowedMinMaxPrices) (ts : Int) (p : ℚ)
    (hmin : DecrSnd s.min_prices) (hmax : DecrSnd s.max_prices) :
    DecrSnd (s.add_price ts p).min_prices ∧
    DecrSnd (s.add_price ts p).max_prices ∧
    (s.add_price ts p).min_prices.getLast? = some (ts, p) ∧
    (s.add_price ts p).min_price = some p ∧
    (∃ f, (s.add_price ts p).max_prices.head? = some f ∧
      (s.add_price ts p).max_price = some f.2) := by
  have hmin1 : DecrSnd (expire_stale_prices_by_cutoff (ts - s.lookback) s.min_prices) :=
    hmin.sublist (expire_suffix _ _).sublist
  have hmax1 : DecrSnd (expire_stale_prices_by_cutoff (ts - s.lookback) s.max_prices) :=
    hmax.sublist (expire_suffix _ _).sublist
  obtain ⟨d1, g1, ge1, ne1⟩ := add_min_price_spec ts p _ hmin1
  obtain ⟨d2, g2, ge2, ne2⟩ := add_min_price_spec ts p _ hmax1
  have emin : (s.add_price ts p).min_prices =
      add_min_price ts p (expire_stale_prices_by_cutoff (ts - s.lookback) s.min_prices) := rfl
  have emax : (s.add_price ts p).max_prices =
      add_min_price ts p (expire_stale_prices_by_cutoff (ts - s.lookback) s.max_prices) := rfl
  refine ⟨?_, ?_, ?_, ?_, ?_⟩
  · rw [emin]; exact d1
  · rw [emax]; exact d2
  · rw [emin]; exact g1
  · have : (s.add_price ts p).min_price =
        price_list_min ((s.add_price ts p).min_prices.map Prod.snd) := rfl
    rw [this, emin]
    apply price_list_min_eq_of
    · exact List.mem_map_of_mem Prod.snd (getLast?_mem_of _ _ g1)
    · intro x hx
      rcases List.mem_map.1 hx with ⟨e, he, rfl⟩
      exact ge1 e he
  · have hval : (s.add_price ts p).max_price =
        price_list_max ((s.add_price ts p).max_prices.map Prod.snd) := rfl
    obtain ⟨f, hf, hfv⟩ := decr_max_eval _ d2 ne2
    refine ⟨f, ?_, ?_⟩
    · rw [emax]; exact hf
    · rw [hval, emax]; exact hfv

theorem applyAddsFrom_decr (adds : List PriceEntry) :
    ∀ s : WindowedMinMaxPrices, DecrSnd s.min_prices → DecrSnd s.max_prices →
      DecrSnd (s.applyAddsFrom adds).min_prices ∧
      DecrSnd (s.applyAddsFrom adds).max_prices := by
  induction adds with
  | nil => intro s h1 h2; exact ⟨h1, h2⟩
  | cons a rest ih =>
    intro s h1 h2
    have hstep := add_price_spec s a.1 a.2 h1 h2
    have hrw : s.applyAddsFrom (a :: rest) = (s.add_price a.1 a.2).applyAddsFrom rest := rfl
    rw [hrw]
    exact ih _ hstep.1 hstep.2.1

theorem fills_total_qty_cons (e : OrderFilled) (rest : List OrderFilled) :
    fills_total_qty (e :: rest) = e.fill_qty + fills_total_qty rest := by
  simp [fills_total_qty]

theorem fills_total_notional_cons (e : OrderFilled) (rest : List OrderFilled) :
    fills_total_notional (e :: rest) =
      e.fill_price * e.fill_qty + fills_total_notional rest := by
  simp [fills_total_notional]

theorem apply_fills_spec (fills : List OrderFilled) :
    ∀ (o : MarketOrder) (S : ℚ), 0 < o.filled_qty →
      o.avg_price = some (S / o.filled_qty) →
      (∀ e ∈ fills, e.execution_id ∉ o.execution_ids) →
      (fills.map OrderFilled.execution_id).Nodup →
      (∀ e ∈ fills, 0 < e.fill_qty) →
      (o.apply_fills fills).filled_qty = o.filled_qty + fills_total_qty fills ∧
      (o.apply_fills fills).avg_price =
        some ((S + fills_total_notional fills) / (o.filled_qty + fills_total_qty fills)) ∧
      (o.apply_fills fills).execution_ids =
        o.execution_ids ++ fills.map OrderFilled.execution_id := by
  induction fills with
  | nil =>
    intro o S hpos havg hdisj hnd hq
    refine ⟨?_, ?_, ?_⟩ <;>
      simp [MarketOrder.apply_fills, fills_total_qty, fills_total_notional, havg]
  | cons e rest ih =>
    intro o S hpos havg hdisj hnd hq
    have hnot : e.execution_id ∉ o.execution_ids := hdisj e (List.mem_cons_self e rest)
    have hstep : o.apply_filled e = o.filled e := by simp [MarketOrder.apply_filled, hnot]
    have hfq : (o.filled e).filled_qty = o.filled_qty + e.fill_qty := rfl
    have havg2 : (o.filled e).avg_price =
        some ((S + e.fill_price * e.fill_qty) / (o.filled_qty + e.fill_qty)) := by
      have h1 : (o.filled e).avg_price =
          some (calculate_avg_price o.avg_price o.filled_qty e.fill_price e.fill_qty) := rfl
      rw [h1, havg]
      simp only [calculate_avg_price]
      rw [div_mul_cancel₀ S (ne_of_gt hpos)]
    have hids2 : (o.filled e).execution_ids = o.execution_ids ++ [e.execution_id] := rfl
    have hpos2 : 0 < (o.filled e).filled_qty := by
      rw [hfq]; exact add_pos hpos (hq e (List.mem_cons_self e rest))
    have hdisj2 : ∀ x ∈ rest, x.execution_id ∉ (o.filled e).execution_ids := by
      intro x hx
      rw [hids2]
      intro hmem
      rcases List.mem_append.1 hmem with h1 | h1
      · exact hdisj x (List.mem_cons_of_mem e hx) h1
      · rw [List.mem_singleton] at h1
        have hx2 := List.mem_map_of_mem OrderFilled.execution_id hx
        rw [h1] at hx2
        exact (List.nodup_cons.1 hnd).1 hx2
    have hfold : o.apply_fills (e :: rest) = (o.filled e).apply_fills rest := by
      show ((e :: rest).foldl MarketOrder.apply_filled o) = _
      rw [List.foldl_cons, hstep]
      rfl
    obtain ⟨ha, hb, hc⟩ := ih (o.filled e) (S + e.fill_price * e.fill_qty) hpos2
      (by rw [havg2, hfq]) hdisj2 (List.nodup_cons.1 hnd).2
      (fun x hx => hq x (List.mem_cons_of_mem e hx))
    refine ⟨?_, ?_, ?_⟩
    · rw [hfold, ha, hfq, fills_total_qty_cons]
      ring
    · rw [hfold, hb, hfq, fills_total_qty_cons, fills_total_notional_cons]
      exact congrArg some (by ring)
    · rw [hfold, hc, hids2, List.map_cons, List.append_assoc, List.singleton_append]

/-- C1 (code bug): on the spec's own test vector — lookback 60, adds
(0,100), (20,98), (40,102), (70,99) — the code reports `min_price = 99` after
the last add, while the minimum over the prices added at timestamps at or
after the cutoff `70 - 60` is 98; `max_price = 102` does match the window
maximum. The claimed windowed-minimum property fails on the code. -/
theorem c1_window_min_max :
    (WindowedMinMaxPrices.applyAdds 60 c1_adds).min_price = some 99 ∧
    (WindowedMinMaxPrices.applyAdds 60 c1_adds).max_price = some 102 ∧
    spec_window_min (70 - 60) c1_adds = some 98 ∧
    spec_window_max (70 - 60) c1_adds = some 102 ∧
    (WindowedMinMaxPrices.applyAdds 60 c1_adds).min_price ≠ spec_window_min (70 - 60) c1_adds := by
  decide

/-- C2 (confirmed): applying the same `OrderFilled` event twice leaves the
order exactly as after the first application, and a fill whose `execution_id`
is already among the order's `execution_ids` is a no-op returning the order
unchanged (so `execution_ids`, `filled_qty` and `avg_price` are unchanged). -/
theorem c2_duplicate_fill_noop (o : MarketOrder) (e : OrderFilled) :
    (o.apply_filled e).apply_filled e = o.apply_filled e ∧
    (e.execution_id ∈ o.execution_ids → o.apply_filled e = o) := by
  constructor
  · by_cases hm : e.execution_id ∈ o.execution_ids
    · simp [MarketOrder.apply_filled, hm]
    · have h1 : o.apply_filled e = o.filled e := by
        simp [MarketOrder.apply_filled, hm]
      have h2 : e.execution_id ∈ (o.filled e).execution_ids := by
        show e.execution_id ∈ o.execution_ids ++ [e.execution_id]
        exact List.mem_append_right _ (List.mem_singleton_self _)
      rw [h1]
      simp [MarketOrder.apply_filled, h2, h1]
  · intro hm
    simp [MarketOrder.apply_filled, hm]

/-- Witness for C2: an order that already carries execution id `E-1` absorbs a
repeated `E-1` fill with no change at all. -/
theorem c2_witness :
    MarketOrder.apply_filled
      { exampleOrder with execution_ids := ["E-1"], filled_qty := 40, avg_price := some 10 }
      { order_id := "O-1", position_id := "P-1", strategy_id := "S-001",
        execution_id := "E-1", fill_qty := 40, fill_price := 10, timestamp := 1 } =
      { exampleOrder with execution_ids := ["E-1"], filled_qty := 40, avg_price := some 10 } :=
  (c2_duplicate_fill_noop
      { exampleOrder with execution_ids := ["E-1"], filled_qty := 40, avg_price := some 10 }
      { order_id := "O-1", position_id := "P-1", strategy_id := "S-001",
        execution_id := "E-1", fill_qty := 40, fill_price := 10, timestamp := 1 }).2
    (by decide)

/-- C3 (code bug): with lookback 60, after adds (0,100), (20,98) the
min-sequence is `[(0,100), (20,98)]` — strictly decreasing from front to back,
not non-decreasing — and the next add (40,102) evicts the entry (20,98) even
though its timestamp 20 is inside the window (cutoff `40 - 60 = -20`) and its
price 98 is smaller than the new price 102: the code evicts entries with value
`≤ price`, not `≥ price`, and also pops from the front. -/
theorem c3_min_sequence_discipline :
    (WindowedMinMaxPrices.applyAdds 60 [(0, 100), (20, 98)]).min_prices =
      [(0, 100), (20, 98)] ∧
    ¬ (100 : ℚ) ≤ 98 ∧
    ((20 : Int), (98 : ℚ)) ∈ (WindowedMinMaxPrices.applyAdds 60 [(0, 100), (20, 98)]).min_prices ∧
    (40 - 60 : Int) ≤ 20 ∧ (98 : ℚ) < 102 ∧
    (WindowedMinMaxPrices.applyAdds 60 [(0, 100), (20, 98), (40, 102)]).min_prices =
      [(40, 102)] ∧
    ((20 : Int), (98 : ℚ)) ∉
      (WindowedMinMaxPrices.applyAdds 60 [(0, 100), (20, 98), (40, 102)]).min_prices := by
  decide

/-- Counterexample to C4 as stated: with lookback 60, after adds (0,100), (20,98)
the front of the min-sequence is (0,100) while `min_price` is 98 ≠ 100. -/
theorem c4_counterexample :
    (WindowedMinMaxPrices.applyAdds 60 [(0, 100), (20, 98)]).min_prices.head? =
      some (0, 100) ∧
    (WindowedMinMaxPrices.applyAdds 60 [(0, 100), (20, 98)]).min_price = some 98 ∧
    (WindowedMinMaxPrices.applyAdds 60 [(0, 100), (20, 98)]).min_price ≠ some 100 := by
  decide

/-- C4 (amended): after every `add_price` call, `min_price` equals the price of
the back (most recently appended) element of the min-sequence — which is the
price just added — and `max_price` equals the price of the front element of the
max-sequence. -/
theorem c4_extrema_ends (L : Int) (adds : List PriceEntry) (ts : Int) (price : ℚ) :
    (∃ e, ((WindowedMinMaxPrices.applyAdds L adds).add_price ts price).min_prices.getLast? =
        some e ∧
      ((WindowedMinMaxPrices.applyAdds L adds).add_price ts price).min_price = some e.2) ∧
    (∃ f, ((WindowedMinMaxPrices.applyAdds L adds).add_price ts price).max_prices.head? =
        some f ∧
      ((WindowedMinMaxPrices.applyAdds L adds).add_price ts price).max_price = some f.2) := by
  have hinv := applyAddsFrom_decr adds (WindowedMinMaxPrices.init L)
    List.Pairwise.nil List.Pairwise.nil
  have hs := add_price_spec (WindowedMinMaxPrices.applyAdds L adds) ts price hinv.1 hinv.2
  exact ⟨⟨(ts, price), hs.2.2.1, hs.2.2.2.1⟩, hs.2.2.2.2⟩

/-- C5 (confirmed): on a market order, an `OrderAmended` event always fails —
`_amended` raises before touching any field (the spec's `AmendNotSupported`) —
and the order's state is entirely unchanged. -/
theorem c5_amend_market_rejected (o : MarketOrder) (e : OrderAmended) :
    o.amended e = Except.error OrderUpdateError.amendNotSupported ∧
    o.apply_amended_run e = o :=
  ⟨rfl, rfl⟩

/-- C6 (confirmed): constructing a `MarketOrder` succeeds exactly when the
quantity check passes and `time_in_force` is one of GTC, IOC, FOK; in
particular for every other time-in-force value the construction fails. -/
theorem c6_market_tif_valid (cl st sym : String) (side : OrderSide) (q : ℚ)
    (tif : TimeInForce) (iid : String) (ts : Int) :
    (∃ o, MarketOrder.init cl st sym side q tif iid ts = Except.ok o) ↔
      (0 < q ∧ (tif = TimeInForce.GTC ∨ tif = TimeInForce.IOC ∨ tif = TimeInForce.FOK)) := by
  constructor
  · rintro ⟨o, ho⟩
    unfold MarketOrder.init at ho
    by_cases hq : 0 < q
    · rw [if_pos hq] at ho
      by_cases ht : tif ∈ MARKET_ORDER_VALID_TIF
      · refine ⟨hq, ?_⟩
        simpa [MARKET_ORDER_VALID_TIF] using ht
      · rw [if_neg ht] at ho
        cases ho
    · rw [if_neg hq] at ho
      cases ho
  · rintro ⟨hq, ht⟩
    have htm : tif ∈ MARKET_ORDER_VALID_TIF := by
      simp only [MARKET_ORDER_VALID_TIF, List.mem_cons, List.mem_singleton]
      tauto
    have hrw : MarketOrder.init cl st sym side q tif iid ts = Except.ok
        { cl_ord_id := cl, strategy_id := st, symbol := sym, side := side,
          quantity := q, time_in_force := tif, init_id := iid, timestamp := ts,
          id := none, position_id := none, execution_ids := [], execution_id := none,
          filled_qty := 0, filled_timestamp := none, avg_price := none } := by
      unfold MarketOrder.init
      rw [if_pos hq, if_pos htm]
    exact ⟨_, hrw⟩

/-- C7 (confirmed): `add_price` on a timestamp that is not tz-aware UTC fails
with `TimestampNotUtc` and leaves the instance unchanged; on a tz-aware UTC
timestamp it does not raise that error. -/
theorem c7_utc_guard (s : WindowedMinMaxPrices) (ts : Datetime) (price : ℚ) :
    (is_datetime_utc ts = false →
      s.add_price_checked ts price = Except.error AddPriceError.timestampNotUtc ∧
      s.add_price_run ts price = s) ∧
    (is_datetime_utc ts = true →
      s.add_price_checked ts price = Except.ok (s.add_price ts.time price)) := by
  constructor
  · intro h
    have h1 : s.add_price_checked ts price = Except.error AddPriceError.timestampNotUtc := by
      unfold WindowedMinMaxPrices.add_price_checked
      rw [h]
      rfl
    refine ⟨h1, ?_⟩
    unfold WindowedMinMaxPrices.add_price_run
    rw [h1]
  · intro h
    unfold WindowedMinMaxPrices.add_price_checked
    rw [h]
    rfl

/-- Witness for C7: a naive timestamp is refused and leaves a fresh instance
untouched; the same instant tagged UTC is accepted. -/
theorem c7_witness :
    ((WindowedMinMaxPrices.init 60).add_price_checked ⟨0, none⟩ 5 =
        Except.error AddPriceError.timestampNotUtc ∧
      (WindowedMinMaxPrices.init 60).add_price_run ⟨0, none⟩ 5 =
        WindowedMinMaxPrices.init 60) ∧
    (WindowedMinMaxPrices.init 60).add_price_checked ⟨0, some 0⟩ 5 =
      Except.ok ((WindowedMinMaxPrices.init 60).add_price 0 5) :=
  ⟨(c7_utc_guard (WindowedMinMaxPrices.init 60) ⟨0, none⟩ 5).1 (by decide),
   (c7_utc_guard (WindowedMinMaxPrices.init 60) ⟨0, some 0⟩ 5).2 (by decide)⟩

/-- C8 (confirmed): folding fills with fresh execution ids and positive
quantities over a fresh order appends each `execution_id` in order, makes
`filled_qty` the sum of the fill quantities (each fill incrementing it by
exactly its `fill_qty`), and sets `avg_price` to the fill-quantity-weighted
mean over all applied fills. -/
theorem c8_fill_accumulation (fills : List OrderFilled) (o0 : MarketOrder)
    (hids : o0.execution_ids = []) (hfq0 : o0.filled_qty = 0)
    (havg : o0.avg_price = none)
    (hnd : (fills.map OrderFilled.execution_id).Nodup)
    (hq : ∀ e ∈ fills, 0 < e.fill_qty) (hne : fills ≠ []) :
    (o0.apply_fills fills).filled_qty = fills_total_qty fills ∧
    (o0.apply_fills fills).avg_price =
      some (fills_total_notional fills / fills_total_qty fills) ∧
    (o0.apply_fills fills).execution_ids = fills.map OrderFilled.execution_id := by
  cases fills with
  | nil => exact absurd rfl hne
  | cons e rest =>
    have hnot : e.execution_id ∉ o0.execution_ids := by
      rw [hids]
      exact List.not_mem_nil _
    have hstep : o0.apply_filled e = o0.filled e := by
      simp [MarketOrder.apply_filled, hnot]
    have hqe : 0 < e.fill_qty := hq e (List.mem_cons_self e rest)
    have hfq2 : (o0.filled e).filled_qty = e.fill_qty := by
      show o0.filled_qty + e.fill_qty = e.fill_qty
      rw [hfq0, zero_add]
    have havg2 : (o0.filled e).avg_price =
        some ((e.fill_price * e.fill_qty) / (o0.filled e).filled_qty) := by
      have h1 : (o0.filled e).avg_price =
          some (calculate_avg_price o0.avg_price o0.filled_qty e.fill_price e.fill_qty) := rfl
      rw [h1, havg]
      simp only [calculate_avg_price]
      rw [hfq2, mul_div_cancel_right₀ _ (ne_of_gt hqe)]
    have hids2 : (o0.filled e).execution_ids = [e.execution_id] := by
      show o0.execution_ids ++ [e.execution_id] = _
      rw [hids, List.nil_append]
    have hdisj2 : ∀ x ∈ rest, x.execution_id ∉ (o0.filled e).execution_ids := by
      intro x hx
      rw [hids2, List.mem_singleton]
      intro h1
      have hx2 := List.mem_map_of_mem OrderFilled.execution_id hx
      rw [h1] at hx2
      exact (List.nodup_cons.1 hnd).1 hx2
    have hfold : o0.apply_fills (e :: rest) = (o0.filled e).apply_fills rest := by
      show ((e :: rest).foldl MarketOrder.apply_filled o0) = _
      rw [List.foldl_cons, hstep]
      rfl
    have hpos2 : 0 < (o0.filled e).filled_qty := by
      rw [hfq2]
      exact hqe
    obtain ⟨ha, hb, hc⟩ := apply_fills_spec rest (o0.filled e) (e.fill_price * e.fill_qty)
      hpos2 havg2 hdisj2 (List.nodup_cons.1 hnd).2
      (fun x hx => hq x (List.mem_cons_of_mem e hx))
    refine ⟨?_, ?_, ?_⟩
    · rw [hfold, ha, hfq2, fills_total_qty_cons]
    · rw [hfold, hb, hfq2, fills_total_qty_cons, fills_total_notional_cons]
    · rw [hfold, hc, hids2, List.map_cons, List.singleton_append]

/-- Witness for C8 at the spec's example: fills 40 @ 10.00 then 60 @ 10.50 on
a fresh qty-100 order give `filled_qty` 100 and `avg_price` 10.30. -/
theorem c8_witness :
    (exampleOrder.apply_fills exampleFills).filled_qty = 100 ∧
    (exampleOrder.apply_fills exampleFills).avg_price = some (103 / 10) := by
  have h := c8_fill_accumulation exampleFills exampleOrder rfl rfl rfl
    (by decide) (by decide) (by decide)
  refine ⟨?_, ?_⟩
  · rw [h.1]
    norm_num [fills_total_qty, exampleFills]
  · rw [h.2.1]
    norm_num [fills_total_qty, fills_total_notional, exampleFills]

/-- C9 (confirmed): the `Quantity` value type admits zero, yet constructing a
`MarketOrder` with quantity zero fails `Condition.positive` (the spec's
`QuantityNonPositive`) whatever the other arguments are. -/
theorem c9_zero_quantity_rejected (cl st sym : String) (side : OrderSide)
    (tif : TimeInForce) (iid : String) (ts : Int) :
    QuantityValid 0 ∧
    MarketOrder.init cl st sym side 0 tif iid ts =
      Except.error OrderInitError.quantityNonPositive := by
  refine ⟨le_refl 0, ?_⟩
  unfold MarketOrder.init
  rw [if_neg (lt_irrefl (0 : ℚ))]

/-- C10 (confirmed): `reset` restores exactly the freshly constructed state
with the same lookback — marks `none`, both sequences empty — so any
subsequent sequence of `add_price` calls produces the same results as on a new
instance. -/
theorem c10_reset_like_new (s : WindowedMinMaxPrices) (adds : List PriceEntry) :
    s.reset = WindowedMinMaxPrices.init s.lookback ∧
    s.reset.min_price = none ∧ s.reset.max_price = none ∧
    s.reset.min_prices = [] ∧ s.reset.max_prices = [] ∧
    s.reset.applyAddsFrom adds =
      (WindowedMinMaxPrices.init s.lookback).applyAddsFrom adds :=
  ⟨rfl, rfl, rfl, rfl, rfl, rfl⟩
